import Mathlib

/-!
Verification of the golife cellular automaton (src/game_of_life.go).

The Go program evolves a two-colour Game-of-Life variant on a toroidal
`gridWidth × gridHeight` grid of `uint8` cell states.  This file gives a
shallow embedding of the core definitions:

* the cell-state constants (`EMPTY`, `BLUE`, `ORANGE`, `DEAD`);
* `countNeighbors`, the toroidal Moore-neighbourhood counter (lines 63–82);
* `transitionRule`, the per-cell transition inlined in `Update`
  (lines 105–140);
* `updateSeq` / `updatePar`, the sequential reading of `Update` and its
  worker decomposition over row slices (lines 85–147);
* `newGame`, the random initial grid (lines 41–55);
* the dense-cells and sparse-pixels frame encoders (lines 276–284 and
  208–238).

Grids are `List (List Nat)`: the outer index is the first Go index `x`
(bounded by `gridWidth`), the inner index the second Go index `y` (bounded
by `gridHeight`).  `uint8` values are `Nat` with `% 256` taken exactly
where Go arithmetic can wrap.
-/

namespace GoLife

/-- Cell-state constant `EMPTY = 0` (game_of_life.go line 27). -/
def EMPTY : Nat := 0

/-- Cell-state constant `BLUE = 1` (line 28). -/
def BLUE : Nat := 1

/-- Cell-state constant `ORANGE = 2` (line 29). -/
def ORANGE : Nat := 2

/-- Cell-state constant `DEAD = 3` (line 30).  The decay chain is
`DEAD = 3, Dead1 = 4, Dead2 = 5, Dead3 = 6`. -/
def DEAD : Nat := 3

/-- A grid: outer index is the Go `x` (width) index, inner index the Go
`y` (height) index, mirroring `grid [][]uint8`. -/
abbrev Grid := List (List Nat)

/-- Total cell lookup, `g.grid[x][y]`; out-of-range reads default to `0`
(the embedding only relies on in-range reads, see `wrapIdx_lt`). -/
def cellAt (g : Grid) (x y : Nat) : Nat := (g.getD x []).getD y 0

/-- Well-formedness of a `w × h` grid: `w` outer slices of length `h`,
as allocated by `NewGame` (lines 42–46). -/
def WF (w h : Nat) (g : Grid) : Prop :=
  g.length = w ∧ ∀ row ∈ g, row.length = h

/-- The 8 Moore-neighbourhood offsets in the iteration order of the two
nested loops of `CountNeighbors` (lines 64–68): `i` outer from `-1` to
`1`, `j` inner, skipping `(0,0)`. -/
def neighborOffsets : List (Int × Int) :=
  [(-1, -1), (-1, 0), (-1, 1), (0, -1), (0, 1), (1, -1), (1, 0), (1, 1)]

/-- Toroidal wraparound `nx := (x + i + gridWidth) % gridWidth`
(lines 71–72).  Go `int` arithmetic on a non-negative numerator agrees
with `Int.emod`; the result is cast back to a `Nat` index. -/
def wrapIdx (a : Nat) (m : Nat) (d : Int) : Nat :=
  (((a : Int) + d + (m : Int)) % (m : Int)).toNat

/-- `CountNeighbors` (lines 63–82): fold over the 8 offsets, incrementing
`blue_count` on `BLUE` and `orange_count` on `ORANGE`; all other states
(Empty and every decay state) fall through the `switch` uncounted. -/
def countNeighbors (w h : Nat) (g : Grid) (x y : Nat) : Nat × Nat :=
  neighborOffsets.foldl
    (fun bo d =>
      let nx := wrapIdx x w d.1
      let ny := wrapIdx y h d.2
      let c := cellAt g nx ny
      if c = BLUE then (bo.1 + 1, bo.2)
      else if c = ORANGE then (bo.1, bo.2 + 1)
      else bo)
    (0, 0)

/-- The per-cell transition inlined in the body of `Update`
(lines 105–140), as a function of the current state and the two neighbor
counts:

* lines 107–115: states `>= DEAD` step the decay chain (`6` returns to
  `EMPTY`, otherwise `cell + 1` in `uint8` arithmetic) without consulting
  the counts;
* lines 120–128: `BLUE`/`ORANGE` cells become `DEAD` when
  `!(3 > count) && !(count > 5)` and otherwise keep their state;
* lines 130–140: an `EMPTY` cell with `count == 3` becomes `BLUE` when
  `blue_count > orange_count`, else `ORANGE`; otherwise it stays `EMPTY`.

In the Go code the counts are only computed after the decay branch has
been ruled out; `CountNeighbors` is pure, so factoring it out is
result-preserving. -/
def transitionRule (cell b o : Nat) : Nat :=
  if DEAD ≤ cell then
    if cell = 6 then EMPTY else (cell + 1) % 256
  else
    let count := b + o
    if cell = BLUE ∨ cell = ORANGE then
      if ¬(3 > count) ∧ ¬(count > 5) then DEAD else cell
    else if cell = EMPTY ∧ count = 3 then
      if b > o then BLUE else ORANGE
    else cell

/-- Next state of cell `(x, y)`: the `Update` loop body writes
`nextGrid[x][y] = transitionRule (grid[x][y]) blue_count orange_count`
(lines 105–140). -/
def updateCell (w h : Nat) (g : Grid) (x y : Nat) : Nat :=
  let bo := countNeighbors w h g x y
  transitionRule (cellAt g x y) bo.1 bo.2

/-- One worker's work for the outer index `x`: the inner
`for y := range gridHeight` loop (lines 103–141). -/
def updateRow (w h : Nat) (g : Grid) (x : Nat) : List Nat :=
  (List.range h).map (updateCell w h g x)

/-- The sequential reading of `Update`: every `x` from `0` to `w - 1`
processed in order (the `P = 1` case of the scheduler). -/
def updateSeq (w h : Nat) (g : Grid) : Grid :=
  (List.range w).map (updateRow w h g)

/-- Length of worker `i`'s slice: `rowsPerWorker = N / P` rows each, the
last worker (`i == numCPU - 1`) taking `endRow = N` instead
(lines 91–98). -/
def sliceLen (N P i : Nat) : Nat :=
  if i = P - 1 then N - i * (N / P) else N / P

/-- The slices of the outer index range handed to the `P` workers:
worker `i` covers `[i * (N / P), i * (N / P) + sliceLen N P i)`
(lines 91–98). -/
def slices (P N : Nat) : List (List Nat) :=
  (List.range P).map (fun i => List.range' (i * (N / P)) (sliceLen N P i))

/-- The parallel reading of `Update` with `P` workers: each worker maps
`updateRow` over its slice of outer indices, writing a disjoint block of
`nextGrid` while reading only the immutable current grid, and the
blocks are assembled in slice order (lines 85–147).  Because the writes
are disjoint and reads never alias writes, any interleaving of the
goroutines produces this grid. -/
def updatePar (P w h : Nat) (g : Grid) : Grid :=
  ((slices P w).map (fun sl => sl.map (updateRow w h g))).flatten

/-- `NewGame` (lines 41–55): every cell is `uint8(rand.Int()) % 3`.  The
random source is abstracted as a function `r` giving the (non-negative)
`rand.Int()` draw used for cell `(i, j)`; the `uint8` conversion is
`% 256`. -/
def newGame (w h : Nat) (r : Nat → Nat → Nat) : Grid :=
  (List.range w).map (fun i => (List.range h).map (fun j => r i j % 256 % 3))

/-- `ouputDenseCells` (lines 276–284): for `y` from `0` to
`gridHeight - 1`, write the whole slice `g.grid[y]` — the outer slice at
index `y` — to the output, with no header or separators. -/
def ouputDenseCells (h : Nat) (g : Grid) : List Nat :=
  (List.range h).flatMap (fun y => g.getD y [])

/-- `binary.LittleEndian.PutUint32` (lines 222, 235): the four bytes of
a 32-bit word, least significant first. -/
def leBytes (v : Nat) : List Nat :=
  [v % 256, v >>> 8 % 256, v >>> 16 % 256, v >>> 24 % 256]

/-- The packed sparse-pixel word (line 219):
`uint32(x&0xFFF) | uint32((y&0xFFF)<<12) | (uint32(state) << 24)`. -/
def packCell (x y state : Nat) : Nat :=
  x &&& 0xFFF ||| (y &&& 0xFFF) <<< 12 ||| state <<< 24

/-- `outputSparsePixels` (lines 208–238): row by row (outer loop `y`,
inner loop `x`), emit the 4 little-endian bytes of the packed word for
every non-`EMPTY` cell and nothing for `EMPTY` cells, then emit the
end-of-frame marker `0xFFFFFFFF`. -/
def outputSparsePixels (w h : Nat) (g : Grid) : List Nat :=
  ((List.range h).flatMap (fun y =>
    (List.range w).flatMap (fun x =>
      if cellAt g x y = EMPTY then [] else leBytes (packCell x y (cellAt g x y)))))
  ++ leBytes 0xFFFFFFFF

/-- The non-`EMPTY` `(x, y, state)` triples of a grid, in the row-by-row
scan order of `outputSparsePixels`. -/
def sparseTriples (w h : Nat) (g : Grid) : List (Nat × Nat × Nat) :=
  (List.range h).flatMap (fun y =>
    (List.range w).filterMap (fun x =>
      if cellAt g x y = EMPTY then none else some (x, y, cellAt g x y)))

/-- Modelled from the spec: a decoder for the sparse-pixel wire format,
which `src/` does not contain (only the encoder is in the repository).
Section 6 of the spec fixes the format — little-endian 32-bit words,
bits 0–11 = x, bits 12–23 = y, bits 24–31 = state, stream terminated by
the word `0xFFFFFFFF` — and the decoder reads words until the
terminator, unpacking each into its three fields. -/
def decodeSparse : List Nat → List (Nat × Nat × Nat)
  | b0 :: b1 :: b2 :: b3 :: rest =>
    let v := b0 ||| b1 <<< 8 ||| b2 <<< 16 ||| b3 <<< 24
    if v = 0xFFFFFFFF then []
    else (v &&& 0xFFF, v >>> 12 &&& 0xFFF, v >>> 24) :: decodeSparse rest
  | _ => []

/-- Modelled from the spec: the byte stream the spec's words for the
dense-cells format describe — "one byte per cell, row-major, raw state
value, `height` rows of `width` bytes each" — where a row is a
constant-`y` scan line, the meaning "row" has everywhere else in the
program (the dense-pixels and sparse-pixels encoders both emit row `y`
as the cells `(0, y) … (w-1, y)`).  Used only to compare the encoder in
the source against the spec's wording. -/
def denseCellsRowMajor (w h : Nat) (g : Grid) : List Nat :=
  (List.range h).flatMap (fun y => (List.range w).map (fun x => cellAt g x y))

/-! ### Basic lemmas about lookups -/

theorem getD_map_range {α : Type} (f : Nat → α) (d : α) {x n : Nat} (hx : x < n) :
    ((List.range n).map f).getD x d = f x := by
  simp [List.getD_eq_getElem?_getD, List.getElem?_map, List.getElem?_range hx]

theorem cellAt_le {g : Grid} {B : Nat} (hg : ∀ row ∈ g, ∀ c ∈ row, c ≤ B)
    (x y : Nat) : cellAt g x y ≤ B := by
  unfold cellAt
  by_cases hx : x < g.length
  · have hrow : g.getD x [] = g[x] := by
      simp [List.getD_eq_getElem?_getD, List.getElem?_eq_getElem hx]
    rw [hrow]
    by_cases hy : y < g[x].length
    · have hc : g[x].getD y 0 = g[x][y] := by
        simp [List.getD_eq_getElem?_getD, List.getElem?_eq_getElem hy]
      rw [hc]
      exact hg _ (List.getElem_mem hx) _ (List.getElem_mem hy)
    · rw [List.getD_eq_getElem?_getD, List.getElem?_eq_none (by omega)]
      exact Nat.zero_le B
  · rw [List.getD_eq_getElem?_getD (g) x, List.getElem?_eq_none (by omega)]
    simp

/-! ### The neighbour counter as a pair of `countP`s -/

theorem foldl_count (f : Int × Int → Nat) :
    ∀ (l : List (Int × Int)) (a b : Nat),
      l.foldl
        (fun bo d =>
          if f d = BLUE then (bo.1 + 1, bo.2)
          else if f d = ORANGE then (bo.1, bo.2 + 1)
          else bo)
        (a, b)
      = (a + l.countP (fun d => f d == BLUE), b + l.countP (fun d => f d == ORANGE)) := by
  intro l
  induction l with
  | nil => intro a b; simp
  | cons d l ih =>
    intro a b
    have hbo : ¬ BLUE = ORANGE := by decide
    have hob : ¬ ORANGE = BLUE := by decide
    rw [List.foldl_cons]
    by_cases h1 : f d = BLUE
    · have hred : (if f d = BLUE then ((a, b).1 + 1, (a, b).2)
          else if f d = ORANGE then ((a, b).1, (a, b).2 + 1) else (a, b))
          = ((a + 1 : Nat), b) := by
        simp [h1]
      have hcb : (d :: l).countP (fun d => f d == BLUE)
          = l.countP (fun d => f d == BLUE) + 1 := by
        rw [List.countP_cons]; simp [h1]
      have hco : (d :: l).countP (fun d => f d == ORANGE)
          = l.countP (fun d => f d == ORANGE) := by
        rw [List.countP_cons]; simp [h1, hbo]
      rw [hred, ih, hcb, hco]
      simp only [Prod.mk.injEq, and_true, true_and]
      omega
    · by_cases h2 : f d = ORANGE
      · have hred : (if f d = BLUE then ((a, b).1 + 1, (a, b).2)
            else if f d = ORANGE then ((a, b).1, (a, b).2 + 1) else (a, b))
            = (a, (b + 1 : Nat)) := by
          simp [h1, h2, hob]
        have hcb : (d :: l).countP (fun d => f d == BLUE)
            = l.countP (fun d => f d == BLUE) := by
          rw [List.countP_cons]; simp [h2, hob]
        have hco : (d :: l).countP (fun d => f d == ORANGE)
            = l.countP (fun d => f d == ORANGE) + 1 := by
          rw [List.countP_cons]; simp [h2]
        rw [hred, ih, hcb, hco]
        simp only [Prod.mk.injEq, and_true, true_and]
        omega
      · have hred : (if f d = BLUE then ((a, b).1 + 1, (a, b).2)
            else if f d = ORANGE then ((a, b).1, (a, b).2 + 1) else (a, b))
            = (a, b) := by
          simp [h1, h2]
        have hcb : (d :: l).countP (fun d => f d == BLUE)
            = l.countP (fun d => f d == BLUE) := by
          rw [List.countP_cons]; simp [h1]
        have hco : (d :: l).countP (fun d => f d == ORANGE)
            = l.countP (fun d => f d == ORANGE) := by
          rw [List.countP_cons]; simp [h2]
        rw [hred, ih, hcb, hco]

theorem countNeighbors_eq (w h : Nat) (g : Grid) (x y : Nat) :
    countNeighbors w h g x y =
      (neighborOffsets.countP
        (fun d => cellAt g (wrapIdx x w d.1) (wrapIdx y h d.2) == BLUE),
       neighborOffsets.countP
        (fun d => cellAt g (wrapIdx x w d.1) (wrapIdx y h d.2) == ORANGE)) := by
  have := foldl_count (fun d => cellAt g (wrapIdx x w d.1) (wrapIdx y h d.2))
    neighborOffsets 0 0
  simpa [countNeighbors] using this

theorem countP_pair_le_length (f : Int × Int → Nat) (l : List (Int × Int)) :
    l.countP (fun d => f d == BLUE) + l.countP (fun d => f d == ORANGE) ≤ l.length := by
  induction l with
  | nil => simp
  | cons d l ih =>
    rw [List.countP_cons, List.countP_cons, List.length_cons]
    by_cases h1 : (f d == BLUE) = true
    · have h2 : ¬ ((f d == ORANGE) = true) := by
        have hfd : f d = BLUE := by simpa using h1
        simp [hfd, BLUE, ORANGE]
      rw [if_pos h1, if_neg h2]
      omega
    · by_cases h2 : (f d == ORANGE) = true
      · rw [if_neg h1, if_pos h2]
        omega
      · rw [if_neg h1, if_neg h2]
        omega

/-! ### Wraparound lemmas -/

theorem wrapIdx_lt {m : Nat} (a : Nat) (d : Int) (hm : 1 ≤ m) : wrapIdx a m d < m := by
  unfold wrapIdx
  have hm0 : (0 : Int) < (m : Int) := by omega
  have h1 : (0 : Int) ≤ ((a : Int) + d + (m : Int)) % (m : Int) :=
    Int.emod_nonneg _ (by omega)
  have h2 : ((a : Int) + d + (m : Int)) % (m : Int) < (m : Int) :=
    Int.emod_lt_of_pos _ hm0
  omega

theorem wrapIdx_zero_neg_one {m : Nat} (hm : 1 ≤ m) : wrapIdx 0 m (-1) = m - 1 := by
  unfold wrapIdx
  have e : ((0 : Nat) : Int) + (-1) + (m : Int) = (m : Int) - 1 := by omega
  rw [e, Int.emod_eq_of_lt (by omega) (by omega)]
  omega

theorem wrapIdx_last_one {m : Nat} (hm : 1 ≤ m) : wrapIdx (m - 1) m 1 = 0 := by
  unfold wrapIdx
  have e : (((m - 1 : Nat)) : Int) + 1 + (m : Int) = (m : Int) * 2 := by omega
  rw [e, Int.mul_emod_right]
  rfl

theorem wrapIdx_self_zero (m : Nat) (a : Nat) (ha : a < m) : wrapIdx a m 0 = a := by
  unfold wrapIdx
  have e : ((a : Int)) + 0 + (m : Int) = (a : Int) + (m : Int) * 1 := by omega
  rw [e, Int.add_mul_emod_self_left, Int.emod_eq_of_lt (by omega) (by omega)]
  omega

/-- Claim C6: for every grid and every coordinate, `CountNeighbors`
examines exactly the 8 Moore-neighbourhood cells under the toroidal
wraparound `nx = (x + dx + width) mod width`,
`ny = (y + dy + height) mod height`, returning the number of `BLUE`
neighbours and the number of `ORANGE` neighbours (so `EMPTY` and decay
states contribute to neither count); in particular the `(-1,-1)` offset
of `(0, 0)` wraps to `(w-1, h-1)` and the `(1, 0)` offset of `(w-1, 0)`
wraps to `(0, 0)`. -/
theorem claim_C6_neighbor_counter (w h : Nat) (g : Grid) (x y : Nat)
    (hw : 1 ≤ w) (hh : 1 ≤ h) :
    countNeighbors w h g x y =
      (neighborOffsets.countP
        (fun d => cellAt g (wrapIdx x w d.1) (wrapIdx y h d.2) == BLUE),
       neighborOffsets.countP
        (fun d => cellAt g (wrapIdx x w d.1) (wrapIdx y h d.2) == ORANGE))
    ∧ neighborOffsets.length = 8
    ∧ ((-1, -1) : Int × Int) ∈ neighborOffsets
    ∧ (wrapIdx 0 w (-1), wrapIdx 0 h (-1)) = (w - 1, h - 1)
    ∧ ((1, 0) : Int × Int) ∈ neighborOffsets
    ∧ (wrapIdx (w - 1) w 1, wrapIdx 0 h 0) = (0, 0) := by
  refine ⟨countNeighbors_eq w h g x y, rfl, by decide, ?_, by decide, ?_⟩
  · rw [wrapIdx_zero_neg_one hw, wrapIdx_zero_neg_one hh]
  · rw [wrapIdx_last_one hw, wrapIdx_self_zero h 0 (by omega)]

/-- Closed instance of claim C6 at `w = h = 3` on a concrete grid. -/
theorem claim_C6_witness :
    countNeighbors 3 3 [[1, 0, 0], [0, 0, 0], [0, 0, 2]] 0 0 =
      (neighborOffsets.countP
        (fun d => cellAt [[1, 0, 0], [0, 0, 0], [0, 0, 2]]
          (wrapIdx 0 3 d.1) (wrapIdx 0 3 d.2) == BLUE),
       neighborOffsets.countP
        (fun d => cellAt [[1, 0, 0], [0, 0, 0], [0, 0, 2]]
          (wrapIdx 0 3 d.1) (wrapIdx 0 3 d.2) == ORANGE))
    ∧ (wrapIdx 0 3 (-1), wrapIdx 0 3 (-1)) = (2, 2) :=
  ⟨(claim_C6_neighbor_counter 3 3 [[1, 0, 0], [0, 0, 0], [0, 0, 2]] 0 0
      (by omega) (by omega)).1,
   (claim_C6_neighbor_counter 3 3 [[1, 0, 0], [0, 0, 0], [0, 0, 2]] 0 0
      (by omega) (by omega)).2.2.2.1⟩

/-- Claim C10: the neighbour counter is total and safe — every wrapped
index lies in `[0, w) × [0, h)` (so no grid access is out of bounds) and
the returned counts satisfy `blue ≤ 8`, `orange ≤ 8` and
`blue + orange ≤ 8`. -/
theorem claim_C10_counter_safety (w h : Nat) (g : Grid) (x y : Nat)
    (hw : 1 ≤ w) (hh : 1 ≤ h) :
    (∀ d ∈ neighborOffsets, wrapIdx x w d.1 < w ∧ wrapIdx y h d.2 < h)
    ∧ (countNeighbors w h g x y).1 ≤ 8
    ∧ (countNeighbors w h g x y).2 ≤ 8
    ∧ (countNeighbors w h g x y).1 + (countNeighbors w h g x y).2 ≤ 8 := by
  have hsum := countP_pair_le_length
    (fun d => cellAt g (wrapIdx x w d.1) (wrapIdx y h d.2)) neighborOffsets
  have hlen : neighborOffsets.length = 8 := rfl
  rw [hlen] at hsum
  rw [countNeighbors_eq w h g x y]
  refine ⟨fun d _ => ⟨wrapIdx_lt x d.1 hw, wrapIdx_lt y d.2 hh⟩, by omega, by omega, by omega⟩

/-- Closed instance of claim C10 at a concrete grid and coordinate. -/
theorem claim_C10_witness :
    (countNeighbors 2 2 [[1, 1], [2, 0]] 1 0).1
      + (countNeighbors 2 2 [[1, 1], [2, 0]] 1 0).2 ≤ 8 :=
  (claim_C10_counter_safety 2 2 [[1, 1], [2, 0]] 1 0 (by omega) (by omega)).2.2.2

/-! ### The transition rule: decay, survival inversion, birth -/

theorem cellAt_updateSeq (w h : Nat) (g : Grid) {x y : Nat} (hx : x < w) (hy : y < h) :
    cellAt (updateSeq w h g) x y = updateCell w h g x y := by
  unfold cellAt updateSeq
  rw [getD_map_range _ _ hx]
  unfold updateRow
  rw [getD_map_range _ _ hy]

theorem decay_steps (b o : Nat) :
    transitionRule DEAD b o = DEAD + 1
    ∧ transitionRule (DEAD + 1) b o = DEAD + 2
    ∧ transitionRule (DEAD + 2) b o = DEAD + 3
    ∧ transitionRule (DEAD + 3) b o = EMPTY := by
  refine ⟨?_, ?_, ?_, ?_⟩ <;> simp [transitionRule, DEAD, EMPTY]

theorem transitionRule_le_six {s : Nat} (hs : s ≤ 6) (b o : Nat) :
    transitionRule s b o ≤ 6 := by
  simp only [transitionRule, EMPTY, BLUE, ORANGE, DEAD]
  split_ifs <;> omega

/-- Claim C1 is a code bug (evaluation of the code at the claim's own
inputs): the `Update` body (game_of_life.go line 122) assigns `DEAD` to a
live cell exactly when `!(3 > count) && !(count > 5)`, i.e. when
`3 <= total <= 5`, and keeps the cell alive otherwise — the negation of
the survival window the spec states.  Concretely a `BLUE` cell with
total 2 stays `BLUE` (claim: dies), with total 3 or 5 becomes `DEAD`
(claim: survives), and with total 6 stays `BLUE` (claim: dies). -/
theorem claim_C1_survival_inverted :
    transitionRule BLUE 2 0 = BLUE
    ∧ transitionRule BLUE 3 0 = DEAD
    ∧ transitionRule BLUE 5 0 = DEAD
    ∧ transitionRule BLUE 6 0 = BLUE
    ∧ transitionRule ORANGE 2 2 = DEAD
    ∧ transitionRule ORANGE 5 2 = ORANGE := by
  decide

/-- Claim C4: an `EMPTY` cell with exactly 3 live neighbours is born
`BLUE` when `blue_count > orange_count` and `ORANGE` otherwise (ties to
`ORANGE`); with any other total it stays `EMPTY`.  Includes the three
concrete tie-break cases of the claim. -/
theorem claim_C4_birth (b o : Nat) :
    (b + o = 3 → transitionRule EMPTY b o = if b > o then BLUE else ORANGE)
    ∧ (b + o ≠ 3 → transitionRule EMPTY b o = EMPTY)
    ∧ transitionRule EMPTY 1 2 = ORANGE
    ∧ transitionRule EMPTY 2 1 = BLUE
    ∧ transitionRule EMPTY 3 0 = BLUE := by
  refine ⟨?_, ?_, by decide, by decide, by decide⟩
  · intro h3
    simp only [transitionRule, EMPTY, BLUE, ORANGE, DEAD, h3]
    norm_num
  · intro h3
    simp only [transitionRule, EMPTY, BLUE, ORANGE, DEAD]
    simp [h3]

/-- Closed instance of claim C4: birth at a tie goes to `ORANGE`, and a
total other than 3 leaves the cell `EMPTY`. -/
theorem claim_C4_witness :
    transitionRule EMPTY 1 2 = ORANGE ∧ transitionRule EMPTY 2 2 = EMPTY :=
  ⟨(claim_C4_birth 1 2).2.2.1, (claim_C4_birth 2 2).2.1 (by decide)⟩

/-- Claim C5: decay never consults the neighbour counts, steps
`Dead → Dead1 → Dead2 → Dead3 → Empty`, and hence a cell in state `DEAD`
reaches `EMPTY` after exactly 4 successive grid updates, passing through
`Dead1, Dead2, Dead3` in order, regardless of its neighbours. -/
theorem claim_C5_decay (w h : Nat) (g : Grid) (x y : Nat) (hx : x < w) (hy : y < h) :
    (∀ s b o b2 o2, DEAD ≤ s → transitionRule s b o = transitionRule s b2 o2)
    ∧ (∀ b o, transitionRule DEAD b o = DEAD + 1
        ∧ transitionRule (DEAD + 1) b o = DEAD + 2
        ∧ transitionRule (DEAD + 2) b o = DEAD + 3
        ∧ transitionRule (DEAD + 3) b o = EMPTY)
    ∧ (cellAt g x y = DEAD →
        cellAt (updateSeq w h g) x y = DEAD + 1
        ∧ cellAt (updateSeq w h (updateSeq w h g)) x y = DEAD + 2
        ∧ cellAt (updateSeq w h (updateSeq w h (updateSeq w h g))) x y = DEAD + 3
        ∧ cellAt (updateSeq w h (updateSeq w h (updateSeq w h (updateSeq w h g)))) x y
            = EMPTY) := by
  refine ⟨?_, decay_steps, ?_⟩
  · intro s b o b2 o2 hs
    unfold transitionRule
    rw [if_pos hs, if_pos hs]
  · intro hc
    have e1 : cellAt (updateSeq w h g) x y = DEAD + 1 := by
      rw [cellAt_updateSeq w h g hx hy]
      unfold updateCell
      rw [hc]
      exact (decay_steps _ _).1
    have e2 : cellAt (updateSeq w h (updateSeq w h g)) x y = DEAD + 2 := by
      rw [cellAt_updateSeq w h _ hx hy]
      unfold updateCell
      rw [e1]
      exact (decay_steps _ _).2.1
    have e3 : cellAt (updateSeq w h (updateSeq w h (updateSeq w h g))) x y = DEAD + 3 := by
      rw [cellAt_updateSeq w h _ hx hy]
      unfold updateCell
      rw [e2]
      exact (decay_steps _ _).2.2.1
    have e4 : cellAt (updateSeq w h (updateSeq w h (updateSeq w h (updateSeq w h g)))) x y
        = EMPTY := by
      rw [cellAt_updateSeq w h _ hx hy]
      unfold updateCell
      rw [e3]
      exact (decay_steps _ _).2.2.2
    exact ⟨e1, e2, e3, e4⟩

/-- Closed instance of claim C5: a lone `DEAD` cell is `EMPTY` after
exactly 4 updates. -/
theorem claim_C5_witness :
    cellAt (updateSeq 1 1 (updateSeq 1 1 (updateSeq 1 1 (updateSeq 1 1 [[3]])))) 0 0
      = EMPTY :=
  ((claim_C5_decay 1 1 [[3]] 0 0 (by decide) (by decide)).2.2 (by decide)).2.2.2

/-- Claim C8: the initial grid holds only values `< 3`
(`Empty/Blue/Orange`); any grid whose cells lie in the seven-value range
`0–6` updates to a grid whose cells lie in `0–6`; and a non-decay state
can only turn into a decay state by a `BLUE`/`ORANGE` cell dying, in
which case the new state is exactly `DEAD` — birth never creates decay
values. -/
theorem claim_C8_state_invariant (w h : Nat) (r : Nat → Nat → Nat) (g : Grid) :
    (∀ row ∈ newGame w h r, ∀ c ∈ row, c < 3)
    ∧ ((∀ row ∈ g, ∀ c ∈ row, c ≤ 6) →
        ∀ row ∈ updateSeq w h g, ∀ c ∈ row, c ≤ 6)
    ∧ (∀ s b o, s < DEAD → DEAD ≤ transitionRule s b o →
        (s = BLUE ∨ s = ORANGE) ∧ transitionRule s b o = DEAD) := by
  refine ⟨?_, ?_, ?_⟩
  · intro row hrow c hc
    simp only [newGame, List.mem_map] at hrow
    obtain ⟨i, hi, rfl⟩ := hrow
    simp only [List.mem_map] at hc
    obtain ⟨j, hj, rfl⟩ := hc
    exact Nat.mod_lt _ (by omega)
  · intro hg row hrow c hc
    simp only [updateSeq, List.mem_map] at hrow
    obtain ⟨x, hx, rfl⟩ := hrow
    simp only [updateRow, List.mem_map] at hc
    obtain ⟨y, hy, rfl⟩ := hc
    unfold updateCell
    exact transitionRule_le_six (cellAt_le hg x y) _ _
  · intro s b o hs hres
    simp only [transitionRule, EMPTY, BLUE, ORANGE, DEAD] at hs hres ⊢
    split_ifs at hres ⊢ <;> omega

/-- Closed instance of claim C8: a concrete in-range grid stays in
range after one update. -/
theorem claim_C8_witness :
    cellAt (updateSeq 2 2 [[1, 3], [6, 0]]) 0 1 ≤ 6 := by
  have hall := (claim_C8_state_invariant 2 2 (fun i j => i + 7 * j)
    [[1, 3], [6, 0]]).2.1 (by decide)
  exact hall ((updateSeq 2 2 [[1, 3], [6, 0]]).getD 0 []) (by decide)
    (cellAt (updateSeq 2 2 [[1, 3], [6, 0]]) 0 1) (by decide)

/-! ### The worker partition and the parallel/sequential equivalence -/

theorem flatten_map_range'_const (q : Nat) :
    ∀ K : Nat,
      ((List.range K).map (fun i => List.range' (i * q) q)).flatten
        = List.range' 0 (K * q) := by
  intro K
  induction K with
  | zero => simp
  | succ K ih =>
    rw [List.range_succ, List.map_append, List.flatten_append, ih]
    simp only [List.map_cons, List.map_nil, List.flatten_cons, List.flatten_nil,
      List.append_nil]
    have happ := List.range'_append_1 0 (K * q) q
    rw [Nat.zero_add] at happ
    rw [happ]
    congr 1
    ring

theorem flatten_slices {P : Nat} (N : Nat) (hP : 1 ≤ P) :
    (slices P N).flatten = List.range N := by
  obtain ⟨K, rfl⟩ : ∃ K, P = K + 1 := ⟨P - 1, by omega⟩
  unfold slices sliceLen
  rw [List.range_succ, List.map_append, List.flatten_append]
  simp only [List.map_cons, List.map_nil, List.flatten_cons, List.flatten_nil,
    List.append_nil]
  have hmap : (List.range K).map
      (fun i => List.range' (i * (N / (K + 1)))
        (if i = K + 1 - 1 then N - i * (N / (K + 1)) else N / (K + 1)))
      = (List.range K).map (fun i => List.range' (i * (N / (K + 1))) (N / (K + 1))) := by
    apply List.map_congr_left
    intro i hi
    have hik : i < K := List.mem_range.mp hi
    rw [if_neg (by omega)]
  rw [hmap, flatten_map_range'_const]
  rw [if_pos (by omega)]
  have hle : K * (N / (K + 1)) ≤ N := by
    calc K * (N / (K + 1)) ≤ (K + 1) * (N / (K + 1)) :=
          Nat.mul_le_mul_right _ (by omega)
    _ ≤ N := by rw [Nat.mul_comm]; exact Nat.div_mul_le_self N (K + 1)
  have happ := List.range'_append_1 0 (K * (N / (K + 1))) (N - K * (N / (K + 1)))
  rw [Nat.zero_add] at happ
  rw [happ]
  have hsum : (N - K * (N / (K + 1))) + K * (N / (K + 1)) = N := by omega
  rw [hsum, List.range_eq_range']

/-- Claim C9: for every row count `N` and worker count `P ≥ 1` the
scheduler partitions `[0, N)` into `P` contiguous slices — each of size
`⌊N / P⌋` except the last, which absorbs the remainder — whose
concatenation is exactly `[0, N)` (so there are no gaps) and which are
pairwise disjoint (so there are no overlaps). -/
theorem claim_C9_partition (P N : Nat) (hP : 1 ≤ P) :
    (slices P N).length = P
    ∧ (∀ i, i < P - 1 → ((slices P N).getD i []).length = N / P)
    ∧ ((slices P N).getD (P - 1) []).length = N - (P - 1) * (N / P)
    ∧ (slices P N).flatten = List.range N
    ∧ List.Pairwise List.Disjoint (slices P N) := by
  refine ⟨?_, ?_, ?_, flatten_slices N hP, ?_⟩
  · simp [slices]
  · intro i hi
    unfold slices
    rw [getD_map_range _ _ (by omega), List.length_range']
    unfold sliceLen
    rw [if_neg (by omega)]
  · unfold slices
    rw [getD_map_range _ _ (by omega), List.length_range']
    unfold sliceLen
    rw [if_pos rfl]
  · have hnodup : ((slices P N).flatten).Nodup := by
      rw [flatten_slices N hP]
      exact List.nodup_range N
    exact (List.nodup_flatten.mp hnodup).2

/-- Closed instance of claim C9 with 3 workers over 5 rows. -/
theorem claim_C9_witness : (slices 3 5).flatten = List.range 5 :=
  (claim_C9_partition 3 5 (by decide)).2.2.2.1

/-- Claim C3: for every grid and every worker count `P ≥ 1`, the
parallel update equals the sequential pass (`P = 1`) cell for cell; any
two worker counts `P, P2 ≥ 1` give identical next buffers; and every
cell of the result equals
`transitionRule (current[x][y]) (countNeighbors current x y)`. -/
theorem claim_C3_par_eq_seq (P w h : Nat) (g : Grid) (hP : 1 ≤ P) :
    updatePar P w h g = updateSeq w h g
    ∧ (∀ P2, 1 ≤ P2 → updatePar P w h g = updatePar P2 w h g)
    ∧ (∀ x, x < w → ∀ y, y < h →
        cellAt (updatePar P w h g) x y =
          transitionRule (cellAt g x y)
            (countNeighbors w h g x y).1 (countNeighbors w h g x y).2) := by
  have hkey : ∀ Q, 1 ≤ Q → updatePar Q w h g = updateSeq w h g := by
    intro Q hQ
    unfold updatePar updateSeq
    rw [← List.map_flatten, flatten_slices w hQ]
  refine ⟨hkey P hP, fun P2 hP2 => (hkey P hP).trans (hkey P2 hP2).symm, ?_⟩
  intro x hx y hy
  rw [hkey P hP, cellAt_updateSeq w h g hx hy]
  rfl

/-- Closed instance of claim C3: 3 workers and 1 worker agree on a
concrete 2×2 grid. -/
theorem claim_C3_witness :
    updatePar 3 2 2 [[1, 0], [2, 5]] = updatePar 1 2 2 [[1, 0], [2, 5]] :=
  (claim_C3_par_eq_seq 3 2 2 [[1, 0], [2, 5]] (by decide)).2.1 1 (by decide)

/-! ### The dense-cells encoder -/

theorem map_getD_range_self (L : List (List Nat)) :
    (List.range L.length).map (fun y => L.getD y []) = L := by
  induction L with
  | nil => rfl
  | cons a L ih =>
    rw [List.length_cons, List.range_succ_eq_map, List.map_cons, List.map_map]
    simp only [List.getD_cons_zero, Function.comp_def, Nat.succ_eq_add_one,
      List.getD_cons_succ]
    rw [ih]

theorem getD_flatten {h : Nat} :
    ∀ (L : List (List Nat)) (x y : Nat), (∀ row ∈ L, row.length = h) → y < h →
      (L.flatten).getD (x * h + y) 0 = (L.getD x []).getD y 0 := by
  intro L
  induction L with
  | nil => intro x y _ _; simp
  | cons a L ih =>
    intro x y hrows hy
    have ha : a.length = h := hrows a (List.mem_cons_self a L)
    cases x with
    | zero =>
      rw [List.flatten_cons, Nat.zero_mul, Nat.zero_add, List.getD_cons_zero]
      rw [List.getD_eq_getElem?_getD, List.getD_eq_getElem?_getD,
        List.getElem?_append_left (by omega)]
    | succ x =>
      rw [List.flatten_cons, List.getD_cons_succ]
      have hidx : (x + 1) * h + y = a.length + (x * h + y) := by
        rw [ha]; ring
      rw [List.getD_eq_getElem?_getD, hidx,
        List.getElem?_append_right (by omega), Nat.add_sub_cancel_left,
        ← List.getD_eq_getElem?_getD]
      exact ih x y (fun row hr => hrows row (List.mem_cons_of_mem a hr)) hy

/-- Claim C2 as stated is false on the code: on the asymmetric 2×2 grid
`[[0, 1], [2, 3]]` (cell `(x, y)` holds `state = 2x + y`) the encoder
emits `[0, 1, 2, 3]` — the grid's outer slices, which are the
constant-`x` columns in the `(x, y)` coordinates every other encoder of
the program uses — whereas the row-major stream of that grid (byte at
offset `y * w + x` equal to `state (x, y)`, rows being constant-`y` scan
lines as in the dense-pixels and sparse-pixels formats) is
`[0, 2, 1, 3]`. -/
theorem claim_C2_counterexample :
    ouputDenseCells 2 [[0, 1], [2, 3]] ≠ denseCellsRowMajor 2 2 [[0, 1], [2, 3]] := by
  decide

/-- Claim C2, amended: the dense-cells encoder emits exactly one byte
per cell carrying the raw state value (0–6), with no header or
separators, as the flattening of the grid array — `height` chunks of
`width` bytes (using `width = height`, as in the program), where chunk
`x` is the grid's outer slice at `x` (a constant-`x` column in image
coordinates, not a constant-`y` row): the byte at offset `x * h + y` is
`state (x, y)`. -/
theorem claim_C2_dense_cells (w h : Nat) (g : Grid) (hwf : WF w h g)
    (hwh : w = h) (hvals : ∀ row ∈ g, ∀ c ∈ row, c ≤ 6) :
    ouputDenseCells h g = g.flatten
    ∧ (ouputDenseCells h g).length = w * h
    ∧ (∀ x, x < w → ∀ y, y < h →
        (ouputDenseCells h g).getD (x * h + y) 0 = cellAt g x y)
    ∧ (∀ b ∈ ouputDenseCells h g, b ≤ 6) := by
  have hgl : g.length = h := hwf.1.trans hwh
  have hflat : ouputDenseCells h g = g.flatten := by
    unfold ouputDenseCells
    rw [← hgl, List.flatMap_def, map_getD_range_self]
  have hlen : (ouputDenseCells h g).length = w * h := by
    rw [hflat, List.length_flatten]
    have hrep : g.map List.length = List.replicate w h := by
      rw [List.eq_replicate_iff]
      refine ⟨by rw [List.length_map, hwf.1], ?_⟩
      intro b hb
      obtain ⟨row, hrow, rfl⟩ := List.mem_map.mp hb
      exact hwf.2 row hrow
    rw [hrep, List.sum_replicate, smul_eq_mul]
  refine ⟨hflat, hlen, ?_, ?_⟩
  · intro x hx y hy
    rw [hflat, getD_flatten g x y hwf.2 hy]
    rfl
  · intro b hb
    rw [hflat] at hb
    obtain ⟨row, hrow, hbrow⟩ := List.mem_flatten.mp hb
    exact hvals row hrow b hbrow

/-- Closed instance of the amended claim C2 on a concrete 2×2 grid. -/
theorem claim_C2_witness :
    ouputDenseCells 2 [[5, 1], [2, 3]] = ([[5, 1], [2, 3]] : Grid).flatten
    ∧ (ouputDenseCells 2 [[5, 1], [2, 3]]).length = 2 * 2 :=
  ⟨(claim_C2_dense_cells 2 2 [[5, 1], [2, 3]]
      (by unfold WF; exact ⟨rfl, by decide⟩) rfl (by decide)).1,
   (claim_C2_dense_cells 2 2 [[5, 1], [2, 3]]
      (by unfold WF; exact ⟨rfl, by decide⟩) rfl (by decide)).2.1⟩

/-! ### The sparse-pixels encoder: round-trip -/

theorem lor_shift_add {a : Nat} (b n : Nat) (ha : a < 2 ^ n) :
    a ||| b <<< n = a + 2 ^ n * b := by
  rw [Nat.shiftLeft_eq, Nat.mul_comm b, Nat.lor_comm, ← Nat.mul_add_lt_is_or ha,
    Nat.add_comm]

theorem le_roundtrip {v : Nat} (hv : v < 4294967296) :
    (v % 256) ||| (v >>> 8 % 256) <<< 8 ||| (v >>> 16 % 256) <<< 16
      ||| (v >>> 24 % 256) <<< 24 = v := by
  rw [Nat.shiftRight_eq_div_pow, Nat.shiftRight_eq_div_pow, Nat.shiftRight_eq_div_pow]
  rw [lor_shift_add _ 8 (by omega), lor_shift_add _ 16 (by omega),
    lor_shift_add _ 24 (by omega)]
  norm_num
  omega

theorem packCell_eq {x y : Nat} (s : Nat) (hx : x < 4096) (hy : y < 4096) :
    packCell x y s = x + 4096 * y + 16777216 * s := by
  unfold packCell
  have hmask : (0xFFF : Nat) = 2 ^ 12 - 1 := by norm_num
  rw [hmask, Nat.and_pow_two_sub_one_of_lt_two_pow (by omega),
    Nat.and_pow_two_sub_one_of_lt_two_pow (by omega)]
  rw [lor_shift_add y 12 (by omega), lor_shift_add s 24 (by omega)]
  norm_num

theorem decodeSparse_cons (b0 b1 b2 b3 : Nat) (rest : List Nat) :
    decodeSparse (b0 :: b1 :: b2 :: b3 :: rest) =
      if b0 ||| b1 <<< 8 ||| b2 <<< 16 ||| b3 <<< 24 = 0xFFFFFFFF then []
      else ((b0 ||| b1 <<< 8 ||| b2 <<< 16 ||| b3 <<< 24) &&& 0xFFF,
            (b0 ||| b1 <<< 8 ||| b2 <<< 16 ||| b3 <<< 24) >>> 12 &&& 0xFFF,
            (b0 ||| b1 <<< 8 ||| b2 <<< 16 ||| b3 <<< 24) >>> 24)
        :: decodeSparse rest := rfl

theorem decode_chunks :
    ∀ (cells : List (Nat × Nat × Nat)),
      (∀ c ∈ cells, c.1 < 4096 ∧ c.2.1 < 4096 ∧ c.2.2 ≤ 6) →
      decodeSparse
          ((cells.flatMap (fun c => leBytes (packCell c.1 c.2.1 c.2.2)))
            ++ leBytes 0xFFFFFFFF)
        = cells := by
  intro cells
  induction cells with
  | nil => intro _; decide
  | cons c cells ih =>
    intro hb
    obtain ⟨x, y, s⟩ := c
    have hx : x < 4096 := (hb _ (List.mem_cons_self _ _)).1
    have hy : y < 4096 := (hb _ (List.mem_cons_self _ _)).2.1
    have hs : s ≤ 6 := (hb _ (List.mem_cons_self _ _)).2.2
    have hveq : packCell x y s = x + 4096 * y + 16777216 * s := packCell_eq s hx hy
    have hv32 : packCell x y s < 4294967296 := by omega
    rw [List.flatMap_cons, List.append_assoc]
    rw [show leBytes (packCell x y s)
        = [packCell x y s % 256, packCell x y s >>> 8 % 256,
           packCell x y s >>> 16 % 256, packCell x y s >>> 24 % 256] from rfl]
    rw [List.cons_append, List.cons_append, List.cons_append, List.cons_append,
      List.nil_append]
    rw [decodeSparse_cons, le_roundtrip hv32]
    rw [if_neg (by omega)]
    have hmask : (0xFFF : Nat) = 2 ^ 12 - 1 := by norm_num
    have hp12 : (2 : Nat) ^ 12 = 4096 := by norm_num
    have hp24 : (2 : Nat) ^ 24 = 16777216 := by norm_num
    have h1 : packCell x y s &&& 0xFFF = x := by
      rw [hmask, Nat.and_pow_two_sub_one_eq_mod, hp12]
      omega
    have h2 : packCell x y s >>> 12 &&& 0xFFF = y := by
      rw [Nat.shiftRight_eq_div_pow, hmask, Nat.and_pow_two_sub_one_eq_mod, hp12]
      omega
    have h3 : packCell x y s >>> 24 = s := by
      rw [Nat.shiftRight_eq_div_pow, hp24]
      omega
    rw [h1, h2, h3, ih (fun c hc => hb c (List.mem_cons_of_mem _ hc))]

theorem filterMap_flatMap {α β γ : Type} (l : List α) (p : α → Option β)
    (k : β → List γ) :
    (l.filterMap p).flatMap k = l.flatMap (fun a => ((p a).map k).getD []) := by
  induction l with
  | nil => rfl
  | cons a l ih =>
    cases hpa : p a with
    | none => simp [List.filterMap_cons, hpa, ih]
    | some b => simp [List.filterMap_cons, hpa, ih]

theorem sparse_body_eq (w h : Nat) (g : Grid) :
    (List.range h).flatMap (fun y =>
      (List.range w).flatMap (fun x =>
        if cellAt g x y = EMPTY then []
        else leBytes (packCell x y (cellAt g x y))))
    = (sparseTriples w h g).flatMap
        (fun c => leBytes (packCell c.1 c.2.1 c.2.2)) := by
  unfold sparseTriples
  rw [List.flatMap_assoc]
  refine List.flatMap_congr fun y _ => ?_
  rw [filterMap_flatMap]
  refine List.flatMap_congr fun x _ => ?_
  by_cases hc : cellAt g x y = EMPTY
  · rw [if_pos hc, if_pos hc]
    rfl
  · rw [if_neg hc, if_neg hc]
    rfl

theorem mem_sparseTriples {w h : Nat} {g : Grid} {x y s : Nat} :
    (x, y, s) ∈ sparseTriples w h g ↔
      x < w ∧ y < h ∧ cellAt g x y = s ∧ s ≠ EMPTY := by
  unfold sparseTriples
  simp only [List.mem_flatMap, List.mem_filterMap, List.mem_range]
  constructor
  · rintro ⟨b, hb, a, ha, hsome⟩
    by_cases hc : cellAt g a b = EMPTY
    · rw [if_pos hc] at hsome
      exact absurd hsome (by simp)
    · rw [if_neg hc] at hsome
      have : a = x ∧ b = y ∧ cellAt g a b = s := by
        simpa using hsome
      obtain ⟨rfl, rfl, rfl⟩ := this
      exact ⟨ha, hb, rfl, hc⟩
  · rintro ⟨hx, hy, hcell, hs⟩
    refine ⟨y, hy, x, hx, ?_⟩
    rw [if_neg (by rw [hcell]; exact hs), hcell]

theorem sparseTriples_bounds {w h : Nat} {g : Grid} (hw : w ≤ 4096)
    (hh : h ≤ 4096) (hvals : ∀ row ∈ g, ∀ c ∈ row, c ≤ 6) :
    ∀ c ∈ sparseTriples w h g, c.1 < 4096 ∧ c.2.1 < 4096 ∧ c.2.2 ≤ 6 := by
  rintro ⟨x, y, s⟩ hc
  obtain ⟨hx, hy, hcell, _⟩ := mem_sparseTriples.mp hc
  refine ⟨?_, ?_, ?_⟩
  · show x < 4096
    omega
  · show y < 4096
    omega
  · show s ≤ 6
    rw [← hcell]
    exact cellAt_le hvals x y

/-- Claim C7: the sparse-pixels encoder emits, row by row, one
little-endian 32-bit word per non-`EMPTY` cell (bits 0–11 = x,
bits 12–23 = y, bits 24–31 = state), omits `EMPTY` cells, and terminates
the frame with the word `0xFFFFFFFF` as its final 4 bytes; decoding the
frame recovers exactly the non-`EMPTY` `(x, y, state)` triples of the
source grid (as a list in scan order, hence as a set). -/
theorem claim_C7_sparse_roundtrip (w h : Nat) (g : Grid)
    (hw : w ≤ 4096) (hh : h ≤ 4096)
    (hvals : ∀ row ∈ g, ∀ c ∈ row, c ≤ 6) :
    decodeSparse (outputSparsePixels w h g) = sparseTriples w h g
    ∧ (∀ x y s, (x, y, s) ∈ decodeSparse (outputSparsePixels w h g) ↔
        (x < w ∧ y < h ∧ cellAt g x y = s ∧ s ≠ EMPTY))
    ∧ (outputSparsePixels w h g).drop ((outputSparsePixels w h g).length - 4)
        = [255, 255, 255, 255] := by
  have hdec : decodeSparse (outputSparsePixels w h g) = sparseTriples w h g := by
    unfold outputSparsePixels
    rw [sparse_body_eq]
    exact decode_chunks _ (sparseTriples_bounds hw hh hvals)
  refine ⟨hdec, fun x y s => by rw [hdec]; exact mem_sparseTriples, ?_⟩
  unfold outputSparsePixels
  rw [show leBytes 0xFFFFFFFF = [255, 255, 255, 255] from by decide]
  exact List.drop_left' (by simp)

/-- Closed instance of claim C7 on a concrete 2×2 grid. -/
theorem claim_C7_witness :
    decodeSparse (outputSparsePixels 2 2 [[0, 1], [2, 3]])
      = sparseTriples 2 2 [[0, 1], [2, 3]] :=
  (claim_C7_sparse_roundtrip 2 2 [[0, 1], [2, 3]] (by norm_num) (by norm_num)
    (by decide)).1

end GoLife
